import Mathlib

/-!
Verification of the baileys-store specification against a shallow embedding
of the repository's code.

The in-memory store (`make-in-memory-store.ts`) and the ordered-dictionary
primitive (`make-ordered-dictionary.ts`) are exercised by the repository's
test suite but their implementation files are not present under `src/`;
those parts are modelled from the specification (each such definition
carries a doc comment starting with `Modelled from the spec:`).  The
key-value-backed authentication adapter (`make-cache-manager-store.ts`) is
present in full and is embedded from its source.
-/

set_option maxHeartbeats 1000000

namespace BaileysStore

/-! ## Keyed insertion-ordered sequences

Modelled from the spec (§4.1): the `OrderedDictionary` primitive of
`make-ordered-dictionary.ts` (implementation absent from `src/`, behaviour
fixed by §4.1 and its test file).  A dictionary is represented by its
insertion-ordered entry list; keyed lookup scans for the first entry whose
extracted id matches. -/

/-- Modelled from the spec: `OrderedDictionary.get` — first entry whose id
matches, or absent. -/
def lookupBy {α : Type} (key : α → String) : List α → String → Option α
  | [], _ => none
  | a :: l, k => if key a == k then some a else lookupBy key l k

/-- Modelled from the spec: `OrderedDictionary.upsert` in `append` mode —
if the id is already present the stored value is replaced in place
(position preserved), otherwise the value is inserted at the end. -/
def upsertBy {α : Type} (key : α → String) (v : α) : List α → List α
  | [] => [v]
  | a :: l => if key a == key v then v :: l else a :: upsertBy key v l

/-- Apply `f` to the entries whose id is `k`, preserving order and all other
entries; models the in-place update of a stored entry. -/
def modifyBy {α : Type} (key : α → String) (k : String) (f : α → α) : List α → List α
  | [] => []
  | a :: l => (if key a == k then f a else a) :: modifyBy key k f l

theorem lookupBy_nil {α : Type} (key : α → String) (k : String) :
    lookupBy key [] k = none := rfl

theorem lookupBy_cons {α : Type} (key : α → String) (a : α) (l : List α) (k : String) :
    lookupBy key (a :: l) k = if key a == k then some a else lookupBy key l k := rfl

theorem lookupBy_key_eq {α : Type} (key : α → String) (l : List α) (k : String) (a : α)
    (h : lookupBy key l k = some a) : key a = k := by
  induction l with
  | nil => simp [lookupBy] at h
  | cons b l ih =>
    rw [lookupBy_cons] at h
    by_cases hb : key b == k
    · rw [if_pos hb] at h
      cases h
      exact eq_of_beq hb
    · rw [if_neg hb] at h
      exact ih h

theorem lookupBy_modifyBy {α : Type} (key : α → String) (k : String) (f : α → α)
    (hf : ∀ a, key a = k → key (f a) = k) (l : List α) :
    lookupBy key (modifyBy key k f l) k = (lookupBy key l k).map f := by
  induction l with
  | nil => rfl
  | cons a l ih =>
    by_cases ha : key a == k
    · have hak : key a = k := eq_of_beq ha
      have hfk : (key (f a) == k) = true := beq_iff_eq.mpr (hf a hak)
      simp [modifyBy, lookupBy_cons, ha, hfk]
    · simp [modifyBy, lookupBy_cons, ha, ih]

theorem lookupBy_upsertBy_self {α : Type} (key : α → String) (v : α) (l : List α) :
    lookupBy key (upsertBy key v l) (key v) = some v := by
  induction l with
  | nil => simp [upsertBy, lookupBy]
  | cons a l ih =>
    by_cases ha : key a == key v
    · simp [upsertBy, ha, lookupBy_cons]
    · have hav : (key a == key v) = false := by simpa using ha
      simp [upsertBy, hav, lookupBy_cons, ih]

theorem lookupBy_upsertBy_ne {α : Type} (key : α → String) (v : α) (l : List α)
    (k : String) (hk : ¬ key v = k) :
    lookupBy key (upsertBy key v l) k = lookupBy key l k := by
  induction l with
  | nil =>
    have : (key v == k) = false := by simpa using hk
    simp [upsertBy, lookupBy_cons, this, lookupBy_nil]
  | cons a l ih =>
    by_cases ha : key a == key v
    · have hak : ¬ (key a == k) = true := by
        intro hcon
        exact hk (by rw [← eq_of_beq ha]; exact eq_of_beq hcon)
      have hvk : (key v == k) = false := by simpa using hk
      simp [upsertBy, ha, lookupBy_cons, hvk, hak]
    · simp [upsertBy, ha, lookupBy_cons, ih]

/-! ## The chat data model and `chats.update`

Modelled from the spec (§3, §4.6): the `Chat` record and the
`chats.update` projection rule of `make-in-memory-store.ts` (implementation
absent from `src/`). -/

/-- Modelled from the spec: the Chat entity (§3) with the fields the
projection rules touch. -/
structure Chat where
  id : String
  unreadCount : Option Int := none
  conversationTimestamp : Option Nat := none
  pinned : Option Nat := none
  archived : Option Bool := none
  name : Option String := none
deriving Repr, DecidableEq

/-- A partial chat record as carried by a `chats.update` event; absent
fields are `none`. -/
structure ChatUpdate where
  id : String
  unreadCount : Option Int := none
  conversationTimestamp : Option Nat := none
  pinned : Option Nat := none
  archived : Option Bool := none
  name : Option String := none
deriving Repr, DecidableEq

/-- Shallow newer-value-wins field merge: a present incoming field replaces
the stored one, an absent incoming field keeps it. -/
def mergeField {α : Type} (incoming old : Option α) : Option α :=
  match incoming with
  | some x => some x
  | none => old

/-- Modelled from the spec: the field-wise merge of a `chats.update` partial
into a stored chat, with Invariant U — a positive incoming `unreadCount`
accumulates onto `(stored ?? 0)`, a zero or negative one replaces the
stored value directly (§4.6). -/
def mergeChat (c : Chat) (u : ChatUpdate) : Chat :=
  { id := c.id
    unreadCount :=
      match u.unreadCount with
      | some v => if 0 < v then some (c.unreadCount.getD 0 + v) else some v
      | none => c.unreadCount
    conversationTimestamp := mergeField u.conversationTimestamp c.conversationTimestamp
    pinned := mergeField u.pinned c.pinned
    archived := mergeField u.archived c.archived
    name := mergeField u.name c.name }

/-- Modelled from the spec: the `chats.update` projection rule — for each
partial, a missing chat id is skipped silently, otherwise the partial is
merged field-wise into the stored chat (§4.6). -/
def chatsUpdate (chats : List Chat) (us : List ChatUpdate) : List Chat :=
  us.foldl
    (fun cs u =>
      if (lookupBy Chat.id cs u.id).isSome then
        modifyBy Chat.id u.id (fun c => mergeChat c u) cs
      else cs)
    chats

/-- A `chats.update` partial carrying only an `unreadCount`. -/
def mkUnreadUpdate (id : String) (v : Int) : ChatUpdate :=
  { id := id, unreadCount := some v }

/-- A sequence of `chats.update` events, each carrying a single
`unreadCount` partial for chat `id`. -/
def applyUnreadUpdates (chats : List Chat) (id : String) (vs : List Int) : List Chat :=
  vs.foldl (fun cs v => chatsUpdate cs [mkUnreadUpdate id v]) chats

theorem mergeChat_id (c : Chat) (u : ChatUpdate) : (mergeChat c u).id = c.id := rfl

theorem chatsUpdate_single (cs : List Chat) (u : ChatUpdate) (c : Chat)
    (h : lookupBy Chat.id cs u.id = some c) :
    lookupBy Chat.id (chatsUpdate cs [u]) u.id = some (mergeChat c u) := by
  have hs : (lookupBy Chat.id cs u.id).isSome := by rw [h]; rfl
  have hmod := lookupBy_modifyBy Chat.id u.id (fun c => mergeChat c u)
    (fun a ha => by rw [mergeChat_id]; exact ha) cs
  simp only [chatsUpdate, List.foldl_cons, List.foldl_nil, hs, if_pos]
  rw [hmod, h]
  rfl

theorem mergeChat_unread (c : Chat) (id : String) (v : Int) :
    mergeChat c (mkUnreadUpdate id v) =
      { c with unreadCount := if 0 < v then some (c.unreadCount.getD 0 + v) else some v } := rfl

theorem unread_fold (cs : List Chat) (id : String) (c : Chat) (u0 : Int)
    (h : lookupBy Chat.id cs id = some c) (hu : c.unreadCount = some u0)
    (vs : List Int) (hpos : ∀ v ∈ vs, 0 < v) :
    lookupBy Chat.id (applyUnreadUpdates cs id vs) id =
      some { c with unreadCount := some (u0 + vs.sum) } := by
  induction vs generalizing cs c u0 with
  | nil =>
    simp only [applyUnreadUpdates, List.foldl_nil, List.sum_nil, add_zero, h]
    cases c
    simp only [Option.some.injEq] at hu ⊢
    simp [hu]
  | cons v rest ih =>
    have hid : c.id = id := lookupBy_key_eq Chat.id cs id c h
    have hvpos : 0 < v := hpos v (List.mem_cons_self v rest)
    have hstep := chatsUpdate_single cs (mkUnreadUpdate id v) c h
    rw [mergeChat_unread, hu] at hstep
    simp only [Option.getD_some, if_pos hvpos] at hstep
    have hrest : ∀ w ∈ rest, 0 < w := fun w hw => hpos w (List.mem_cons_of_mem v hw)
    have happ : applyUnreadUpdates cs id (v :: rest) =
        applyUnreadUpdates (chatsUpdate cs [mkUnreadUpdate id v]) id rest := rfl
    rw [happ]
    have ihx := ih (chatsUpdate cs [mkUnreadUpdate id v])
      { c with unreadCount := some (u0 + v) } (u0 + v) hstep rfl hrest
    rw [ihx]
    simp [List.sum_cons, add_assoc]

/-- **C1** (Unread accumulation, Invariant U).  For a chat already present in
the chats collection: a sequence of `chats.update` events carrying positive
`unreadCount` values `v₁..vₖ` leaves the stored `unreadCount` at
`(stored ?? 0) + Σ vᵢ` (conjunct one for a possibly-absent initial value
with a nonempty sequence, conjunct two for a present initial value `u₀`),
while a single zero-or-negative update replaces the stored value directly
(conjunct three). -/
theorem unread_accumulation (cs : List Chat) (id : String) (c : Chat)
    (h : lookupBy Chat.id cs id = some c) :
    (∀ vs : List Int, vs ≠ [] → (∀ v ∈ vs, 0 < v) →
      lookupBy Chat.id (applyUnreadUpdates cs id vs) id =
        some { c with unreadCount := some (c.unreadCount.getD 0 + vs.sum) }) ∧
    (∀ u0 : Int, c.unreadCount = some u0 → ∀ vs : List Int, (∀ v ∈ vs, 0 < v) →
      lookupBy Chat.id (applyUnreadUpdates cs id vs) id =
        some { c with unreadCount := some (u0 + vs.sum) }) ∧
    (∀ v : Int, v ≤ 0 →
      lookupBy Chat.id (chatsUpdate cs [mkUnreadUpdate id v]) id =
        some { c with unreadCount := some v }) := by
  refine ⟨?_, ?_, ?_⟩
  · intro vs hne hpos
    match vs, hne with
    | v :: rest, _ =>
      have hvpos : 0 < v := hpos v (List.mem_cons_self v rest)
      have hstep := chatsUpdate_single cs (mkUnreadUpdate id v) c h
      rw [mergeChat_unread] at hstep
      simp only [if_pos hvpos] at hstep
      have hrest : ∀ w ∈ rest, 0 < w := fun w hw => hpos w (List.mem_cons_of_mem v hw)
      have happ : applyUnreadUpdates cs id (v :: rest) =
          applyUnreadUpdates (chatsUpdate cs [mkUnreadUpdate id v]) id rest := rfl
      rw [happ]
      have ihx := unread_fold (chatsUpdate cs [mkUnreadUpdate id v]) id
        { c with unreadCount := some (c.unreadCount.getD 0 + v) }
        (c.unreadCount.getD 0 + v) hstep rfl rest hrest
      rw [ihx]
      simp [List.sum_cons, add_assoc]
  · intro u0 hu vs hpos
    exact unread_fold cs id c u0 h hu vs hpos
  · intro v hv
    have hstep := chatsUpdate_single cs (mkUnreadUpdate id v) c h
    rw [mergeChat_unread] at hstep
    have : ¬ 0 < v := not_lt.mpr hv
    simpa [this] using hstep

/-- Witness for C1 at concrete inputs: chat `A` stored with `unreadCount = 5`,
then positive updates `3, 2` accumulate to `10`, and an update of `0`
replaces the stored value with `0`. -/
theorem unread_accumulation_witness :
    lookupBy Chat.id
        (applyUnreadUpdates [{ id := "A", unreadCount := some 5 }] "A" [3, 2]) "A" =
      some { id := "A", unreadCount := some 10 } ∧
    lookupBy Chat.id
        (chatsUpdate [{ id := "A", unreadCount := some 5 }] [mkUnreadUpdate "A" 0]) "A" =
      some { id := "A", unreadCount := some 0 } := by
  have h := unread_accumulation [{ id := "A", unreadCount := some 5 }] "A"
    { id := "A", unreadCount := some 5 } (by decide)
  refine ⟨?_, ?_⟩
  · have h1 := h.2.1 5 rfl [3, 2] (by decide)
    simpa using h1
  · have h2 := h.2.2 0 (by decide)
    simpa using h2

/-! ## Messages, contacts, labels and the replica state

Modelled from the spec (§3, §4.6): the remaining entity records and the
replica's collection set (`make-in-memory-store.ts` is absent from
`src/`). -/

/-- The message identity triple `(remoteJid, id, fromMe)` (§3). -/
structure WAMessageKey where
  id : String
  remoteJid : String
  fromMe : Bool := false
deriving Repr, DecidableEq

/-- Modelled from the spec: the Message entity (§3) with the fields the
projection rules touch. -/
structure WAMessage where
  key : WAMessageKey
  messageTimestamp : Option Nat := none
  content : Option String := none
  status : Option Nat := none
  starred : Option Bool := none
deriving Repr, DecidableEq

/-- Modelled from the spec: the id extractor keying each per-chat message
dictionary (`waMessageID`). -/
def waMessageID (m : WAMessage) : String := m.key.id

/-- Modelled from the spec: the Contact entity (§3) with the fields the
projection rules touch. -/
structure Contact where
  id : String
  name : Option String := none
  imgUrl : Option String := none
  status : Option String := none
deriving Repr, DecidableEq

/-- Modelled from the spec: the Label entity (§3). -/
structure Label where
  id : String
  name : String := ""
  color : Nat := 0
  deleted : Bool := false
deriving Repr, DecidableEq

/-- Modelled from the spec: the replica's projected collections — chats and
per-chat message dictionaries are insertion-ordered keyed sequences,
contacts a keyed map, labels an `ObjectRepository` (§2, §3). -/
structure Store where
  chats : List Chat := []
  contacts : List Contact := []
  messages : List (String × List WAMessage) := []
  labels : List Label := []
deriving Repr, DecidableEq

/-- Locate a stored message by `(remoteJid, id)` (§4.6 `messages.update`). -/
def msgGet (s : Store) (jid mid : String) : Option WAMessage :=
  match lookupBy Prod.fst s.messages jid with
  | none => none
  | some p => lookupBy waMessageID p.2 mid

/-! ## `messages.update` and Invariant M -/

/-- A partial message record as carried by a `messages.update` event. -/
structure MessageUpdate where
  status : Option Nat := none
  starred : Option Bool := none
  content : Option String := none
deriving Repr, DecidableEq

/-- A `messages.update` partial carrying only a status. -/
def statusUpdate (t : Nat) : MessageUpdate := { status := some t }

/-- Modelled from the spec: the merge of a `messages.update` partial into a
stored message, with Invariant M — a present incoming status is applied
only when strictly greater than a present stored status (otherwise only the
status field of the update is dropped), and accepted unconditionally when
the stored message has no status; all other present fields merge shallowly
(§4.6). -/
def applyMsgUpdate (m : WAMessage) (u : MessageUpdate) : WAMessage :=
  { key := m.key
    messageTimestamp := m.messageTimestamp
    content := mergeField u.content m.content
    status :=
      match u.status, m.status with
      | some s, some t => if t < s then some s else some t
      | some s, none => some s
      | none, t => t
    starred := mergeField u.starred m.starred }

/-- Modelled from the spec: one element of a `messages.update` event —
locate the message by `(key.remoteJid, key.id)`, skip silently if the chat
dictionary or the message is absent, else merge in place (§4.6). -/
def messagesUpdateOne (s : Store) (k : WAMessageKey) (u : MessageUpdate) : Store :=
  match lookupBy Prod.fst s.messages k.remoteJid with
  | none => s
  | some p =>
    match lookupBy waMessageID p.2 k.id with
    | none => s
    | some _ =>
      { s with messages :=
          (modifyBy Prod.fst k.remoteJid
            (fun q => (q.1, modifyBy waMessageID k.id (fun m => applyMsgUpdate m u) q.2))
            s.messages) }

/-- Modelled from the spec: the `messages.update` projection rule (§4.6). -/
def messagesUpdate (s : Store) (ups : List (WAMessageKey × MessageUpdate)) : Store :=
  ups.foldl (fun s ku => messagesUpdateOne s ku.1 ku.2) s

/-- A sequence of `messages.update` events, each carrying a single
status-only partial for the message keyed `k`. -/
def applyStatusSeq (s : Store) (k : WAMessageKey) (ss : List Nat) : Store :=
  ss.foldl (fun s t => messagesUpdate s [(k, statusUpdate t)]) s

theorem applyMsgUpdate_key (m : WAMessage) (u : MessageUpdate) :
    (applyMsgUpdate m u).key = m.key := rfl

theorem msgGet_messagesUpdateOne (s : Store) (k : WAMessageKey) (u : MessageUpdate)
    (m : WAMessage) (h : msgGet s k.remoteJid k.id = some m) :
    msgGet (messagesUpdateOne s k u) k.remoteJid k.id = some (applyMsgUpdate m u) := by
  cases houter : lookupBy Prod.fst s.messages k.remoteJid with
  | none => simp [msgGet, houter] at h
  | some p =>
    have hinner : lookupBy waMessageID p.2 k.id = some m := by
      simpa [msgGet, houter] using h
    simp only [messagesUpdateOne, houter, hinner]
    have hout := lookupBy_modifyBy Prod.fst k.remoteJid
      (fun q => (q.1, modifyBy waMessageID k.id (fun m => applyMsgUpdate m u) q.2))
      (fun q hq => hq) s.messages
    have hin := lookupBy_modifyBy waMessageID k.id (fun m => applyMsgUpdate m u)
      (fun a ha => by rw [waMessageID, applyMsgUpdate_key]; exact ha) p.2
    simp only [msgGet, hout, houter, Option.map_some', hin, hinner]

theorem applyMsgUpdate_status_some (m : WAMessage) (s0 t : Nat) (h : m.status = some s0) :
    applyMsgUpdate m (statusUpdate t) = { m with status := some (Nat.max s0 t) } := by
  cases m with
  | mk key ts content st starred =>
    simp only at h
    subst h
    simp only [applyMsgUpdate, statusUpdate, mergeField]
    rcases Nat.lt_or_ge s0 t with hlt | hge
    · simp [hlt, Nat.max_eq_right (Nat.le_of_lt hlt)]
    · simp [Nat.not_lt.mpr hge, Nat.max_eq_left hge]

theorem status_fold (s : Store) (k : WAMessageKey) (m : WAMessage) (s0 : Nat)
    (ss : List Nat) (h : msgGet s k.remoteJid k.id = some m) (hst : m.status = some s0) :
    msgGet (applyStatusSeq s k ss) k.remoteJid k.id =
      some { m with status := some (ss.foldl Nat.max s0) } := by
  induction ss generalizing s m s0 with
  | nil =>
    simp only [applyStatusSeq, List.foldl_nil, h]
    cases m
    simp only at hst
    subst hst
    rfl
  | cons t rest ih =>
    have hstep := msgGet_messagesUpdateOne s k (statusUpdate t) m h
    rw [applyMsgUpdate_status_some m s0 t hst] at hstep
    have happ : applyStatusSeq s k (t :: rest) =
        applyStatusSeq (messagesUpdate s [(k, statusUpdate t)]) k rest := rfl
    have hone : messagesUpdate s [(k, statusUpdate t)] = messagesUpdateOne s k (statusUpdate t) := rfl
    rw [happ, hone]
    have ihx := ih (messagesUpdateOne s k (statusUpdate t))
      { m with status := some (Nat.max s0 t) } (Nat.max s0 t) hstep rfl
    rw [ihx]
    rfl

/-- **C2** (Monotonic status, Invariant M).  For a stored message: a
sequence of status-only `messages.update` events leaves the stored status
at the maximum of the initial status and all incoming ones (conjunct one
for a present initial status `s₀`, conjunct two for an absent one, where
the first incoming status is accepted unconditionally); an equal-or-lower
incoming status leaves the status unchanged while the remaining update
fields are still applied (conjunct three); an incoming status on a message
with no stored status is accepted unconditionally (conjunct four). -/
theorem monotonic_status (s : Store) (m : WAMessage)
    (h : msgGet s m.key.remoteJid m.key.id = some m) :
    (∀ s0 : Nat, ∀ ss : List Nat, m.status = some s0 →
      msgGet (applyStatusSeq s m.key ss) m.key.remoteJid m.key.id =
        some { m with status := some (ss.foldl Nat.max s0) }) ∧
    (∀ s1 : Nat, ∀ rest : List Nat, m.status = none →
      msgGet (applyStatusSeq s m.key (s1 :: rest)) m.key.remoteJid m.key.id =
        some { m with status := some (rest.foldl Nat.max s1) }) ∧
    (∀ s0 t : Nat, ∀ b : Bool, m.status = some s0 → t ≤ s0 →
      msgGet (messagesUpdate s [(m.key, { status := some t, starred := some b })])
          m.key.remoteJid m.key.id =
        some { m with starred := some b }) ∧
    (∀ t : Nat, m.status = none →
      msgGet (messagesUpdate s [(m.key, statusUpdate t)]) m.key.remoteJid m.key.id =
        some { m with status := some t }) := by
  refine ⟨?_, ?_, ?_, ?_⟩
  · intro s0 ss hst
    exact status_fold s m.key m s0 ss h hst
  · intro s1 rest hst
    have hstep := msgGet_messagesUpdateOne s m.key (statusUpdate s1) m h
    have hupd : applyMsgUpdate m (statusUpdate s1) = { m with status := some s1 } := by
      cases m
      simp only at hst
      subst hst
      rfl
    rw [hupd] at hstep
    have happ : applyStatusSeq s m.key (s1 :: rest) =
        applyStatusSeq (messagesUpdate s [(m.key, statusUpdate s1)]) m.key rest := rfl
    have hone : messagesUpdate s [(m.key, statusUpdate s1)] =
        messagesUpdateOne s m.key (statusUpdate s1) := rfl
    rw [happ, hone]
    exact status_fold (messagesUpdateOne s m.key (statusUpdate s1)) m.key
      { m with status := some s1 } s1 rest hstep rfl
  · intro s0 t b hst hle
    have hstep := msgGet_messagesUpdateOne s m.key
      { status := some t, starred := some b } m h
    have hupd : applyMsgUpdate m { status := some t, starred := some b } =
        { m with starred := some b } := by
      cases m
      simp only at hst
      subst hst
      simp [applyMsgUpdate, mergeField, Nat.not_lt.mpr hle]
    rw [hupd] at hstep
    exact hstep
  · intro t hst
    have hstep := msgGet_messagesUpdateOne s m.key (statusUpdate t) m h
    have hupd : applyMsgUpdate m (statusUpdate t) = { m with status := some t } := by
      cases m
      simp only at hst
      subst hst
      rfl
    rw [hupd] at hstep
    exact hstep

/-- Witness for C2 at concrete inputs: a stored message with status `4`
keeps status `4` under a downgrade attempt to `2`, and under an equal
status `3`-after-upgrade sequence the status follows the maximum. -/
theorem monotonic_status_witness :
    msgGet
        (applyStatusSeq
          { messages := [("A", [{ key := { id := "m1", remoteJid := "A", fromMe := true },
                                  status := some 4 }])] }
          { id := "m1", remoteJid := "A", fromMe := true } [2]) "A" "m1" =
      some { key := { id := "m1", remoteJid := "A", fromMe := true }, status := some 4 } ∧
    msgGet
        (applyStatusSeq
          { messages := [("A", [{ key := { id := "m1", remoteJid := "A", fromMe := true },
                                  status := some 2 }])] }
          { id := "m1", remoteJid := "A", fromMe := true } [4, 3]) "A" "m1" =
      some { key := { id := "m1", remoteJid := "A", fromMe := true }, status := some 4 } := by
  constructor
  · have h := (monotonic_status
      { messages := [("A", [{ key := { id := "m1", remoteJid := "A", fromMe := true },
                              status := some 4 }])] }
      { key := { id := "m1", remoteJid := "A", fromMe := true }, status := some 4 }
      (by decide)).1 4 [2] rfl
    simpa using h
  · have h := (monotonic_status
      { messages := [("A", [{ key := { id := "m1", remoteJid := "A", fromMe := true },
                              status := some 2 }])] }
      { key := { id := "m1", remoteJid := "A", fromMe := true }, status := some 2 }
      (by decide)).1 2 [4, 3] rfl
    simpa using h

/-! ## `labels.edit` and Invariant L -/

/-- The number of non-deleted labels held by the repository. -/
def nonDeletedCount (labels : List Label) : Nat :=
  (labels.filter (fun x => !x.deleted)).length

/-- Modelled from the spec: the `labels.edit` projection rule of
`make-in-memory-store.ts` (absent from `src/`) — a `deleted` incoming label
removes any stored label with the same id; an edit to an already-present id
is always applied; a new id is inserted only while fewer than 20 non-deleted
labels are stored, otherwise the edit is silently rejected (§4.6,
Invariant L). -/
def labelsEdit (labels : List Label) (lab : Label) : List Label :=
  if lab.deleted then labels.filter (fun x => !(x.id == lab.id))
  else if (lookupBy Label.id labels lab.id).isSome then
    modifyBy Label.id lab.id (fun _ => lab) labels
  else if nonDeletedCount labels < 20 then labels ++ [lab]
  else labels

theorem lookupBy_filter_out {α : Type} (key : α → String) (l : List α) (k : String) :
    lookupBy key (l.filter (fun x => !(key x == k))) k = none := by
  induction l with
  | nil => rfl
  | cons a l ih =>
    cases hb : (key a == k) with
    | false => simp [List.filter_cons, hb, lookupBy_cons, ih]
    | true => simpa [List.filter_cons, hb] using ih

theorem modifyBy_length {α : Type} (key : α → String) (k : String) (f : α → α)
    (l : List α) : (modifyBy key k f l).length = l.length := by
  induction l with
  | nil => rfl
  | cons a l ih => simp [modifyBy, ih]

theorem modifyBy_mem {α : Type} (key : α → String) (k : String) (f : α → α)
    (l : List α) (x : α) (hx : x ∈ modifyBy key k f l) :
    x ∈ l ∨ ∃ a ∈ l, x = f a := by
  induction l with
  | nil => simp [modifyBy] at hx
  | cons a l ih =>
    simp only [modifyBy, List.mem_cons] at hx
    rcases hx with hx | hx
    · by_cases ha : key a == k
      · rw [if_pos ha] at hx
        exact Or.inr ⟨a, List.mem_cons_self a l, hx⟩
      · rw [if_neg ha] at hx
        exact Or.inl (hx ▸ List.mem_cons_self a l)
    · rcases ih hx with h | ⟨b, hb, hfb⟩
      · exact Or.inl (List.mem_cons_of_mem a h)
      · exact Or.inr ⟨b, List.mem_cons_of_mem a hb, hfb⟩

/-- The reachable-state invariant of the label repository: at most 20 labels
are stored, all of them non-deleted. -/
def LabelsInv (labels : List Label) : Prop :=
  labels.length ≤ 20 ∧ ∀ x ∈ labels, x.deleted = false

theorem nonDeletedCount_of_inv (labels : List Label)
    (h : ∀ x ∈ labels, x.deleted = false) : nonDeletedCount labels = labels.length := by
  unfold nonDeletedCount
  rw [List.filter_eq_self.mpr]
  intro a ha
  simp [h a ha]

theorem labelsEdit_inv (labels : List Label) (lab : Label) (h : LabelsInv labels) :
    LabelsInv (labelsEdit labels lab) := by
  obtain ⟨hlen, hdel⟩ := h
  unfold labelsEdit
  by_cases hd : lab.deleted
  · rw [if_pos hd]
    exact ⟨le_trans (List.length_filter_le _ _) hlen,
      fun x hx => hdel x (List.mem_of_mem_filter hx)⟩
  · rw [if_neg hd]
    have hdf : lab.deleted = false := by simpa using hd
    by_cases hp : (lookupBy Label.id labels lab.id).isSome
    · rw [if_pos hp]
      refine ⟨by rw [modifyBy_length]; exact hlen, fun x hx => ?_⟩
      rcases modifyBy_mem Label.id lab.id (fun _ => lab) labels x hx with hx | ⟨a, _, hfa⟩
      · exact hdel x hx
      · rw [hfa]; exact hdf
    · rw [if_neg hp]
      by_cases hc : nonDeletedCount labels < 20
      · rw [if_pos hc]
        rw [nonDeletedCount_of_inv labels hdel] at hc
        refine ⟨by simpa using Nat.succ_le_of_lt hc, fun x hx => ?_⟩
        rcases List.mem_append.mp hx with hx | hx
        · exact hdel x hx
        · rw [List.mem_singleton.mp hx]; exact hdf
      · rw [if_neg hc]
        exact ⟨hlen, hdel⟩

theorem labelsEdit_fold_inv (es : List Label) (labels : List Label)
    (h : LabelsInv labels) : LabelsInv (es.foldl labelsEdit labels) := by
  induction es generalizing labels with
  | nil => exact h
  | cons e es ih => exact ih (labelsEdit labels e) (labelsEdit_inv labels e h)

/-- **C3** (20-label cap, Invariant L).  A deleted incoming label removes any
stored label with its id (conjunct one); a new id is silently rejected when
20 non-deleted labels are already stored (conjunct two); an edit to an
already-present id is always applied (conjunct three); after any sequence
of `labels.edit` events from the empty repository at most 20 non-deleted
labels are stored (conjunct four). -/
theorem label_cap (lab : Label) (labels : List Label) :
    (lab.deleted = true →
      lookupBy Label.id (labelsEdit labels lab) lab.id = none) ∧
    (lab.deleted = false → lookupBy Label.id labels lab.id = none →
      20 ≤ nonDeletedCount labels → labelsEdit labels lab = labels) ∧
    (lab.deleted = false → (lookupBy Label.id labels lab.id).isSome = true →
      lookupBy Label.id (labelsEdit labels lab) lab.id = some lab) ∧
    (∀ es : List Label, nonDeletedCount (es.foldl labelsEdit []) ≤ 20) := by
  refine ⟨?_, ?_, ?_, ?_⟩
  · intro hd
    simp only [labelsEdit, hd, if_pos]
    exact lookupBy_filter_out Label.id labels lab.id
  · intro hd hno hge
    simp [labelsEdit, hd, hno, Nat.not_lt.mpr hge]
  · intro hd hp
    have hmod := lookupBy_modifyBy Label.id lab.id (fun _ => lab) (fun a _ => rfl) labels
    cases hcase : lookupBy Label.id labels lab.id with
    | none => rw [hcase] at hp; simp at hp
    | some a => simp [labelsEdit, hd, hp, hmod, hcase]
  · intro es
    have h := labelsEdit_fold_inv es [] ⟨by simp, by simp⟩
    calc nonDeletedCount (es.foldl labelsEdit [])
        ≤ (es.foldl labelsEdit []).length := List.length_filter_le _ _
      _ ≤ 20 := h.1

/-- Witness for C3 at concrete inputs: with 20 distinct non-deleted labels
stored, an edit carrying a 21st fresh id is rejected unchanged, and a
deleted edit removes the label with its id. -/
theorem label_cap_witness :
    labelsEdit ((List.range 20).map (fun i => { id := toString i : Label }))
        { id := "fresh" } =
      (List.range 20).map (fun i => { id := toString i : Label }) ∧
    lookupBy Label.id (labelsEdit [{ id := "a" }] { id := "a", deleted := true }) "a" =
      none := by
  constructor
  · exact (label_cap { id := "fresh" }
      ((List.range 20).map (fun i => { id := toString i : Label }))).2.1
      rfl (by decide) (by decide)
  · exact (label_cap { id := "a", deleted := true } [{ id := "a" }]).1 rfl

/-! ## `messages.upsert` and notify-created chats -/

/-- The position selector of a `messages.upsert` event; `notify` is treated
like `append` for positioning (§4.6). -/
inductive UpsertType
  | append
  | prepend
  | notify
deriving Repr, DecidableEq

/-- Modelled from the spec: `OrderedDictionary.upsert` with an explicit
mode — a present id is replaced in place, an absent one is inserted at the
chosen end (§4.1). -/
def dictUpsert {α : Type} (key : α → String) (v : α) (mode : UpsertType)
    (l : List α) : List α :=
  match mode with
  | .prepend =>
    if (lookupBy key l (key v)).isSome then modifyBy key (key v) (fun _ => v) l
    else v :: l
  | _ => upsertBy key v l

/-- Modelled from the spec: the chat synthesized when a `notify` upsert
finds no chat entry for the message's jid — that id and a zero unread count
(§4.6). -/
def freshChat (jid : String) : Chat :=
  { id := jid, unreadCount := some 0 }

/-- Modelled from the spec: route one message into the per-chat message
dictionaries — ensure a dictionary exists for `m.key.remoteJid` (creating
it if absent) and upsert the message at the mode's position (§4.6). -/
def msgDictsUpsert (dicts : List (String × List WAMessage)) (m : WAMessage)
    (mode : UpsertType) : List (String × List WAMessage) :=
  match lookupBy Prod.fst dicts m.key.remoteJid with
  | some _ =>
    modifyBy Prod.fst m.key.remoteJid
      (fun q => (q.1, dictUpsert waMessageID m mode q.2)) dicts
  | none => dicts ++ [(m.key.remoteJid, [m])]

/-- Modelled from the spec: one message of a `messages.upsert` event —
store the message, then for `notify` synthesize and insert a fresh chat
when none exists for the jid; an existing chat is left untouched (§4.6). -/
def messagesUpsertStep (s : Store) (mode : UpsertType) (m : WAMessage) : Store :=
  let s1 := { s with messages := msgDictsUpsert s.messages m mode }
  if mode = UpsertType.notify ∧ lookupBy Chat.id s1.chats m.key.remoteJid = none then
    { s1 with chats := upsertBy Chat.id (freshChat m.key.remoteJid) s1.chats }
  else s1

/-- Modelled from the spec: the `messages.upsert` projection rule (§4.6). -/
def messagesUpsert (s : Store) (msgs : List WAMessage) (mode : UpsertType) : Store :=
  msgs.foldl (fun s m => messagesUpsertStep s mode m) s

theorem messagesUpsertStep_messages (s : Store) (mode : UpsertType) (m : WAMessage) :
    (messagesUpsertStep s mode m).messages = msgDictsUpsert s.messages m mode := by
  unfold messagesUpsertStep
  by_cases h : mode = UpsertType.notify ∧
      lookupBy Chat.id s.chats m.key.remoteJid = none
  · rw [if_pos h]
  · rw [if_neg h]

theorem messagesUpsertStep_contacts (s : Store) (mode : UpsertType) (m : WAMessage) :
    (messagesUpsertStep s mode m).contacts = s.contacts := by
  unfold messagesUpsertStep
  by_cases h : mode = UpsertType.notify ∧
      lookupBy Chat.id s.chats m.key.remoteJid = none
  · rw [if_pos h]
  · rw [if_neg h]

theorem messagesUpsertStep_chats_ne_notify (s : Store) (mode : UpsertType)
    (m : WAMessage) (h : mode ≠ UpsertType.notify) :
    (messagesUpsertStep s mode m).chats = s.chats := by
  unfold messagesUpsertStep
  rw [if_neg (fun hc => h hc.1)]

theorem messagesUpsertStep_chats_some (s : Store) (mode : UpsertType) (m : WAMessage)
    (jid : String) (c : Chat) (h : lookupBy Chat.id s.chats jid = some c) :
    lookupBy Chat.id (messagesUpsertStep s mode m).chats jid = some c := by
  unfold messagesUpsertStep
  by_cases hc : mode = UpsertType.notify ∧
      lookupBy Chat.id s.chats m.key.remoteJid = none
  · rw [if_pos hc]
    by_cases hjid : m.key.remoteJid = jid
    · rw [hjid] at hc
      rw [hc.2] at h
      exact absurd h (by simp)
    · simpa [lookupBy_upsertBy_ne Chat.id (freshChat m.key.remoteJid) s.chats jid hjid]
        using h
  · rw [if_neg hc]
    exact h

theorem messagesUpsert_chats_some (s : Store) (mode : UpsertType)
    (msgs : List WAMessage) (jid : String) (c : Chat)
    (h : lookupBy Chat.id s.chats jid = some c) :
    lookupBy Chat.id (messagesUpsert s msgs mode).chats jid = some c := by
  induction msgs generalizing s with
  | nil => exact h
  | cons m rest ih =>
    exact ih (messagesUpsertStep s mode m)
      (messagesUpsertStep_chats_some s mode m jid c h)

theorem messagesUpsertStep_notify_creates (s : Store) (m : WAMessage)
    (h : lookupBy Chat.id s.chats m.key.remoteJid = none) :
    lookupBy Chat.id (messagesUpsertStep s UpsertType.notify m).chats m.key.remoteJid =
      some (freshChat m.key.remoteJid) := by
  unfold messagesUpsertStep
  rw [if_pos ⟨rfl, h⟩]
  exact lookupBy_upsertBy_self Chat.id (freshChat m.key.remoteJid) s.chats

theorem messagesUpsertStep_none_cases (s : Store) (mode : UpsertType) (m : WAMessage)
    (jid : String) (h : lookupBy Chat.id s.chats jid = none) :
    lookupBy Chat.id (messagesUpsertStep s mode m).chats jid = none ∨
    lookupBy Chat.id (messagesUpsertStep s mode m).chats jid =
      some (freshChat jid) := by
  unfold messagesUpsertStep
  by_cases hc : mode = UpsertType.notify ∧
      lookupBy Chat.id s.chats m.key.remoteJid = none
  · rw [if_pos hc]
    by_cases hjid : m.key.remoteJid = jid
    · right
      rw [← hjid]
      exact lookupBy_upsertBy_self Chat.id (freshChat m.key.remoteJid) s.chats
    · left
      rw [lookupBy_upsertBy_ne Chat.id (freshChat m.key.remoteJid) s.chats jid hjid]
      exact h
  · rw [if_neg hc]
    exact Or.inl h

theorem messagesUpsert_notify_creates (msgs : List WAMessage) (s : Store)
    (m : WAMessage) (hm : m ∈ msgs)
    (h : lookupBy Chat.id s.chats m.key.remoteJid = none) :
    lookupBy Chat.id (messagesUpsert s msgs UpsertType.notify).chats m.key.remoteJid =
      some (freshChat m.key.remoteJid) := by
  induction msgs generalizing s with
  | nil => simp at hm
  | cons m0 rest ih =>
    have hfold : messagesUpsert s (m0 :: rest) UpsertType.notify =
        messagesUpsert (messagesUpsertStep s UpsertType.notify m0) rest
          UpsertType.notify := rfl
    rw [hfold]
    rcases List.mem_cons.mp hm with hm0 | hmr
    · subst hm0
      exact messagesUpsert_chats_some _ UpsertType.notify rest m.key.remoteJid _
        (messagesUpsertStep_notify_creates s m h)
    · rcases messagesUpsertStep_none_cases s UpsertType.notify m0 m.key.remoteJid h with
        hn | hs
      · exact ih _ hmr hn
      · exact messagesUpsert_chats_some _ UpsertType.notify rest m.key.remoteJid _ hs

theorem lookupBy_append_of_none {α : Type} (key : α → String) (l1 l2 : List α)
    (k : String) (h : lookupBy key l1 k = none) :
    lookupBy key (l1 ++ l2) k = lookupBy key l2 k := by
  induction l1 with
  | nil => rfl
  | cons a l ih =>
    rw [lookupBy_cons] at h
    by_cases ha : key a == k
    · rw [if_pos ha] at h; exact absurd h (by simp)
    · rw [if_neg ha] at h
      simpa [lookupBy_cons, ha] using ih h

theorem dictUpsert_lookup_self {α : Type} (key : α → String) (v : α)
    (mode : UpsertType) (l : List α) :
    lookupBy key (dictUpsert key v mode l) (key v) = some v := by
  cases mode with
  | prepend =>
    by_cases hp : (lookupBy key l (key v)).isSome
    · have hmod := lookupBy_modifyBy key (key v) (fun _ => v) (fun a _ => rfl) l
      cases hcase : lookupBy key l (key v) with
      | none => rw [hcase] at hp; simp at hp
      | some a => simp [dictUpsert, hp, hmod, hcase]
    · simp [dictUpsert, hp, lookupBy_cons]
  | append => exact lookupBy_upsertBy_self key v l
  | notify => exact lookupBy_upsertBy_self key v l

theorem msgGet_msgDictsUpsert_self (dicts : List (String × List WAMessage))
    (m : WAMessage) (mode : UpsertType) :
    (match lookupBy Prod.fst (msgDictsUpsert dicts m mode) m.key.remoteJid with
      | none => none
      | some p => lookupBy waMessageID p.2 m.key.id) = some m := by
  unfold msgDictsUpsert
  cases hcase : lookupBy Prod.fst dicts m.key.remoteJid with
  | none =>
    rw [lookupBy_append_of_none Prod.fst dicts _ m.key.remoteJid hcase]
    simp [lookupBy_cons, waMessageID, lookupBy_nil]
  | some p =>
    have hmod := lookupBy_modifyBy Prod.fst m.key.remoteJid
      (fun q => (q.1, dictUpsert waMessageID m mode q.2)) (fun q hq => hq) dicts
    rw [hmod, hcase]
    simp only [Option.map_some']
    have := dictUpsert_lookup_self waMessageID m mode p.2
    rw [waMessageID] at this
    exact this

/-- **C5** (Notify creates chat).  For a `messages.upsert` event of type
`notify`: a message whose jid has no chat entry causes a fresh chat for
that jid to be inserted (conjunct one); an existing chat for the jid is
left entirely unchanged, in particular its unread count (conjunct two); the
message itself is stored under the per-jid dictionary (conjunct three); and
the synthesized chat carries the jid as id and a zero unread count
(conjunct four). -/
theorem notify_creates_chat (s : Store) (msgs : List WAMessage) :
    (∀ m ∈ msgs, lookupBy Chat.id s.chats m.key.remoteJid = none →
      lookupBy Chat.id (messagesUpsert s msgs UpsertType.notify).chats
          m.key.remoteJid = some (freshChat m.key.remoteJid)) ∧
    (∀ m ∈ msgs, ∀ c : Chat, lookupBy Chat.id s.chats m.key.remoteJid = some c →
      lookupBy Chat.id (messagesUpsert s msgs UpsertType.notify).chats
          m.key.remoteJid = some c) ∧
    (∀ m : WAMessage,
      msgGet (messagesUpsert s [m] UpsertType.notify) m.key.remoteJid m.key.id =
        some m) ∧
    (∀ jid : String, (freshChat jid).id = jid ∧ (freshChat jid).unreadCount = some 0) := by
  refine ⟨?_, ?_, ?_, ?_⟩
  · intro m hm h
    exact messagesUpsert_notify_creates msgs s m hm h
  · intro m hm c h
    exact messagesUpsert_chats_some s UpsertType.notify msgs m.key.remoteJid c h
  · intro m
    have hone : messagesUpsert s [m] UpsertType.notify =
        messagesUpsertStep s UpsertType.notify m := rfl
    rw [hone]
    unfold msgGet
    rw [messagesUpsertStep_messages]
    exact msgGet_msgDictsUpsert_self s.messages m UpsertType.notify
  · intro jid
    exact ⟨rfl, rfl⟩

/-- Witness for C5 at concrete inputs: an empty store receives a notify
upsert of a message in chat `B` — a chat `B` with zero unread count
appears and the message is stored; a store with chat `B` at unread count 5
keeps it unchanged. -/
theorem notify_creates_chat_witness :
    lookupBy Chat.id
        (messagesUpsert {} [{ key := { id := "m1", remoteJid := "B" } }]
          UpsertType.notify).chats "B" =
      some { id := "B", unreadCount := some 0 } ∧
    msgGet (messagesUpsert {} [{ key := { id := "m1", remoteJid := "B" } }]
        UpsertType.notify) "B" "m1" =
      some { key := { id := "m1", remoteJid := "B" } } ∧
    lookupBy Chat.id
        (messagesUpsert { chats := [{ id := "B", unreadCount := some 5 }] }
          [{ key := { id := "m1", remoteJid := "B" } }] UpsertType.notify).chats "B" =
      some { id := "B", unreadCount := some 5 } := by
  refine ⟨?_, ?_, ?_⟩
  · exact (notify_creates_chat {} [{ key := { id := "m1", remoteJid := "B" } }]).1
      { key := { id := "m1", remoteJid := "B" } } (by simp) (by decide)
  · exact (notify_creates_chat {} [{ key := { id := "m1", remoteJid := "B" } }]).2.2.1
      { key := { id := "m1", remoteJid := "B" } }
  · exact (notify_creates_chat { chats := [{ id := "B", unreadCount := some 5 }] }
      [{ key := { id := "m1", remoteJid := "B" } }]).2.1
      { key := { id := "m1", remoteJid := "B" } } (by simp)
      { id := "B", unreadCount := some 5 } (by decide)

/-! ## `messaging-history.set` and the latest-sync reset -/

/-- The history sync type carried by a `messaging-history.set` event; the
on-demand variant is skipped entirely (§4.6). -/
inductive SyncType
  | initialBootstrap
  | initialStatusV3
  | full
  | recent
  | pushName
  | onDemand
deriving Repr, DecidableEq

/-- Modelled from the spec: shallow newer-value-wins merge of an incoming
contact into a stored one (§4.6 `contacts.upsert`). -/
def contactMerge (c : Contact) (u : Contact) : Contact :=
  { id := c.id
    name := mergeField u.name c.name
    imgUrl := mergeField u.imgUrl c.imgUrl
    status := mergeField u.status c.status }

/-- Modelled from the spec: the `contacts.upsert` projection rule — merge
each incoming contact into the existing one or insert a new one (§4.6). -/
def contactsUpsert (cs : List Contact) (incoming : List Contact) : List Contact :=
  incoming.foldl
    (fun cs u =>
      match lookupBy Contact.id cs u.id with
      | some _ => modifyBy Contact.id u.id (fun c => contactMerge c u) cs
      | none => cs ++ [u])
    cs

/-- Modelled from the spec: the `chats.upsert` projection rule — append
each incoming chat into the chats dictionary (§4.6). -/
def chatsUpsertEvent (chats : List Chat) (incoming : List Chat) : List Chat :=
  incoming.foldl (fun cs c => upsertBy Chat.id c cs) chats

/-- The payload of a `messaging-history.set` event. -/
structure HistoryPayload where
  chats : List Chat := []
  contacts : List Contact := []
  messages : List WAMessage := []
  isLatest : Bool := false
  syncType : SyncType := SyncType.initialBootstrap
deriving Repr, DecidableEq

/-- Modelled from the spec: the `messaging-history.set` projection rule —
skip entirely for the on-demand sync type; when `isLatest` is true first
clear all chats, contacts and the messages-per-chat map; then upsert the
incoming chats, merge the incoming contacts, and route the incoming
messages to `messages.upsert` in append mode (§4.6). -/
def messagingHistorySet (s : Store) (p : HistoryPayload) : Store :=
  if p.syncType = SyncType.onDemand then s
  else
    let s0 := if p.isLatest then { s with chats := [], contacts := [], messages := [] }
              else s
    let s1 := { s0 with chats := chatsUpsertEvent s0.chats p.chats }
    let s2 := { s1 with contacts := contactsUpsert s1.contacts p.contacts }
    messagesUpsert s2 p.messages UpsertType.append

/-- The messages-collection effect of a `messages.upsert` fold. -/
def msgDictsUpsertList (dicts : List (String × List WAMessage))
    (msgs : List WAMessage) (mode : UpsertType) : List (String × List WAMessage) :=
  msgs.foldl (fun d m => msgDictsUpsert d m mode) dicts

theorem messagesUpsert_messages (s : Store) (msgs : List WAMessage)
    (mode : UpsertType) :
    (messagesUpsert s msgs mode).messages = msgDictsUpsertList s.messages msgs mode := by
  induction msgs generalizing s with
  | nil => rfl
  | cons m rest ih =>
    have h : messagesUpsert s (m :: rest) mode =
        messagesUpsert (messagesUpsertStep s mode m) rest mode := rfl
    rw [h, ih, messagesUpsertStep_messages]
    rfl

theorem messagesUpsert_contacts (s : Store) (msgs : List WAMessage)
    (mode : UpsertType) :
    (messagesUpsert s msgs mode).contacts = s.contacts := by
  induction msgs generalizing s with
  | nil => rfl
  | cons m rest ih =>
    have h : messagesUpsert s (m :: rest) mode =
        messagesUpsert (messagesUpsertStep s mode m) rest mode := rfl
    rw [h, ih, messagesUpsertStep_contacts]

theorem messagesUpsert_append_chats (s : Store) (msgs : List WAMessage) :
    (messagesUpsert s msgs UpsertType.append).chats = s.chats := by
  induction msgs generalizing s with
  | nil => rfl
  | cons m rest ih =>
    have h : messagesUpsert s (m :: rest) UpsertType.append =
        messagesUpsert (messagesUpsertStep s UpsertType.append m) rest
          UpsertType.append := rfl
    rw [h, ih, messagesUpsertStep_chats_ne_notify s UpsertType.append m (by simp)]

/-- **C4** (Latest-sync reset).  For a `messaging-history.set` event whose
sync type is not on-demand and whose `isLatest` flag is true, the resulting
chats, contacts and messages-per-chat collections equal the projections of
the event's own payload onto empty collections: every pre-existing chat,
contact and per-chat message dictionary is cleared before the incoming set
is applied, and afterwards the collections contain only entities derived
from the incoming event. -/
theorem latest_sync_reset (s : Store) (p : HistoryPayload)
    (hsync : p.syncType ≠ SyncType.onDemand) (hlatest : p.isLatest = true) :
    (messagingHistorySet s p).chats = chatsUpsertEvent [] p.chats ∧
    (messagingHistorySet s p).contacts = contactsUpsert [] p.contacts ∧
    (messagingHistorySet s p).messages =
      msgDictsUpsertList [] p.messages UpsertType.append := by
  unfold messagingHistorySet
  rw [if_neg hsync, hlatest]
  simp only [if_pos]
  refine ⟨?_, ?_, ?_⟩
  · rw [messagesUpsert_append_chats]
  · rw [messagesUpsert_contacts]
  · rw [messagesUpsert_messages]

/-- Witness for C4 at concrete inputs: a store holding chat `X`, contact
`X` and a message under `X` receives a latest initial sync carrying chat
`Y` and contact `Y` — afterwards only the `Y` entities remain. -/
theorem latest_sync_reset_witness :
    (messagingHistorySet
        { chats := [{ id := "X" }], contacts := [{ id := "X", name := some "Old" }],
          messages := [("X", [{ key := { id := "m0", remoteJid := "X" } }])] }
        { chats := [{ id := "Y" }], contacts := [{ id := "Y", name := some "New" }],
          isLatest := true }).chats = [{ id := "Y" : Chat }] ∧
    (messagingHistorySet
        { chats := [{ id := "X" }], contacts := [{ id := "X", name := some "Old" }],
          messages := [("X", [{ key := { id := "m0", remoteJid := "X" } }])] }
        { chats := [{ id := "Y" }], contacts := [{ id := "Y", name := some "New" }],
          isLatest := true }).contacts = [{ id := "Y", name := some "New" : Contact }] ∧
    (messagingHistorySet
        { chats := [{ id := "X" }], contacts := [{ id := "X", name := some "Old" }],
          messages := [("X", [{ key := { id := "m0", remoteJid := "X" } }])] }
        { chats := [{ id := "Y" }], contacts := [{ id := "Y", name := some "New" }],
          isLatest := true }).messages = [] := by
  have h := latest_sync_reset
    { chats := [{ id := "X" }], contacts := [{ id := "X", name := some "Old" }],
      messages := [("X", [{ key := { id := "m0", remoteJid := "X" } }])] }
    { chats := [{ id := "Y" }], contacts := [{ id := "Y", name := some "New" }],
      isLatest := true }
    (by decide) rfl
  refine ⟨?_, ?_, ?_⟩
  · rw [h.1]; rfl
  · rw [h.2.1]; rfl
  · rw [h.2.2]; rfl

/-! ## `loadMessages` cursor semantics -/

/-- The cursor accepted by `loadMessages` (§4.7). -/
inductive MsgCursor
  | before (k : WAMessageKey)
  | after (k : WAMessageKey)
deriving Repr, DecidableEq

/-- Modelled from the spec: `loadMessages` over one chat's ordered message
sequence (§4.7) — a `before` cursor whose message is present returns the
portion strictly before it in insertion order, up to `limit`, preserving
order; an `after` cursor returns the empty list; a missing cursor message
yields the empty list; no cursor returns a prefix of length at most
`limit`. -/
def loadMessagesList (msgs : List WAMessage) (limit : Nat)
    (cursor : Option MsgCursor) : List WAMessage :=
  match cursor with
  | none => msgs.take limit
  | some (MsgCursor.before k) =>
    if msgs.any (fun m => m.key.id == k.id) then
      (msgs.takeWhile (fun m => !(m.key.id == k.id))).take limit
    else []
  | some (MsgCursor.after _) => []

/-- Modelled from the spec: `loadMessages(jid, limit, cursor)` on the
replica — looks up the chat's message dictionary (treating a missing one as
empty) and applies the cursor rule (§4.7). -/
def loadMessages (s : Store) (jid : String) (limit : Nat)
    (cursor : Option MsgCursor) : List WAMessage :=
  loadMessagesList (((lookupBy Prod.fst s.messages jid).map Prod.snd).getD [])
    limit cursor

theorem takeWhile_not_eq_take_findIdx {α : Type} (p : α → Bool) (l : List α) :
    l.takeWhile (fun a => !(p a)) = l.take (l.findIdx p) := by
  induction l with
  | nil => rfl
  | cons a l ih =>
    cases hp : p a with
    | true => simp [List.takeWhile_cons, List.findIdx_cons, hp]
    | false => simp [List.takeWhile_cons, List.findIdx_cons, hp, ih, List.take_succ_cons]

/-- **C6** (loadMessages cursor semantics).  For a chat whose per-jid
message sequence is stored: a `before` cursor whose message is present
returns the first `min limit idx` stored messages, where `idx` is the
insertion index of the cursor message — the messages strictly before the
cursor in insertion order, up to `limit`, order preserved (conjunct one,
also stating the result is a prefix of the sequence); a `before` cursor
whose message is not found returns the empty list (conjunct two); an
`after` cursor returns the empty list (conjunct three); no cursor returns
the prefix of length at most `limit` (conjunct four). -/
theorem loadMessages_cursor (s : Store) (jid : String) (limit : Nat)
    (p : String × List WAMessage)
    (hp : lookupBy Prod.fst s.messages jid = some p) :
    (∀ k : WAMessageKey, p.2.any (fun m => m.key.id == k.id) = true →
      loadMessages s jid limit (some (MsgCursor.before k)) =
        (p.2.take (p.2.findIdx (fun m => m.key.id == k.id))).take limit ∧
      loadMessages s jid limit (some (MsgCursor.before k)) <+: p.2) ∧
    (∀ k : WAMessageKey, p.2.any (fun m => m.key.id == k.id) = false →
      loadMessages s jid limit (some (MsgCursor.before k)) = []) ∧
    (∀ k : WAMessageKey, loadMessages s jid limit (some (MsgCursor.after k)) = []) ∧
    (loadMessages s jid limit none = p.2.take limit ∧
      loadMessages s jid limit none <+: p.2 ∧
      (loadMessages s jid limit none).length = min limit p.2.length) := by
  have hbase : ((lookupBy Prod.fst s.messages jid).map Prod.snd).getD [] = p.2 := by
    rw [hp]; rfl
  refine ⟨?_, ?_, ?_, ?_, ?_, ?_⟩
  · intro k hk
    constructor
    · simp only [loadMessages, loadMessagesList, hbase, hk, if_pos]
      rw [takeWhile_not_eq_take_findIdx]
    · simp only [loadMessages, loadMessagesList, hbase, hk, if_pos]
      rw [takeWhile_not_eq_take_findIdx, List.take_take]
      exact List.take_prefix _ _
  · intro k hk
    simp [loadMessages, loadMessagesList, hbase, hk]
  · intro k
    simp [loadMessages, loadMessagesList, hbase]
  · simp [loadMessages, loadMessagesList, hbase]
  · simp only [loadMessages, loadMessagesList, hbase]
    exact List.take_prefix _ _
  · simp [loadMessages, loadMessagesList, hbase, List.length_take]

/-- Witness for C6 at concrete inputs: three stored messages, a `before`
cursor at the third returns the first two in order; an `after` cursor and a
missing cursor message return the empty list; no cursor returns the prefix
of the requested length. -/
theorem loadMessages_cursor_witness :
    loadMessages
        { messages := [("A", [{ key := { id := "m1", remoteJid := "A" } },
                              { key := { id := "m2", remoteJid := "A" } },
                              { key := { id := "m3", remoteJid := "A" } }])] }
        "A" 10 (some (MsgCursor.before { id := "m3", remoteJid := "A" })) =
      [{ key := { id := "m1", remoteJid := "A" } },
       { key := { id := "m2", remoteJid := "A" } }] ∧
    loadMessages
        { messages := [("A", [{ key := { id := "m1", remoteJid := "A" } },
                              { key := { id := "m2", remoteJid := "A" } },
                              { key := { id := "m3", remoteJid := "A" } }])] }
        "A" 10 (some (MsgCursor.after { id := "m1", remoteJid := "A" })) = [] ∧
    loadMessages
        { messages := [("A", [{ key := { id := "m1", remoteJid := "A" } },
                              { key := { id := "m2", remoteJid := "A" } },
                              { key := { id := "m3", remoteJid := "A" } }])] }
        "A" 10 (some (MsgCursor.before { id := "zz", remoteJid := "A" })) = [] ∧
    loadMessages
        { messages := [("A", [{ key := { id := "m1", remoteJid := "A" } },
                              { key := { id := "m2", remoteJid := "A" } },
                              { key := { id := "m3", remoteJid := "A" } }])] }
        "A" 2 none =
      [{ key := { id := "m1", remoteJid := "A" } },
       { key := { id := "m2", remoteJid := "A" } }] := by
  have h := loadMessages_cursor
    { messages := [("A", [{ key := { id := "m1", remoteJid := "A" } },
                          { key := { id := "m2", remoteJid := "A" } },
                          { key := { id := "m3", remoteJid := "A" } }])] }
    "A" 10
    ("A", [{ key := { id := "m1", remoteJid := "A" } },
           { key := { id := "m2", remoteJid := "A" } },
           { key := { id := "m3", remoteJid := "A" } }])
    (by decide)
  have h2 := loadMessages_cursor
    { messages := [("A", [{ key := { id := "m1", remoteJid := "A" } },
                          { key := { id := "m2", remoteJid := "A" } },
                          { key := { id := "m3", remoteJid := "A" } }])] }
    "A" 2
    ("A", [{ key := { id := "m1", remoteJid := "A" } },
           { key := { id := "m2", remoteJid := "A" } },
           { key := { id := "m3", remoteJid := "A" } }])
    (by decide)
  refine ⟨?_, ?_, ?_, ?_⟩
  · have := (h.1 { id := "m3", remoteJid := "A" } (by decide)).1
    rw [this]
    rfl
  · exact h.2.2.1 { id := "m1", remoteJid := "A" }
  · exact h.2.1 { id := "zz", remoteJid := "A" } (by decide)
  · have := h2.2.2.2.1
    rw [this]
    rfl

/-! ## The chat sort key (`waChatKey`) -/

/-- Left-pad a string to width `n` with the character `c`. -/
def padStart (n : Nat) (c : Char) (s : String) : String :=
  if s.length < n then String.mk (List.replicate (n - s.length) c) ++ s else s

/-- A chat ordering: the key extractor paired with the string comparison,
mirroring the `{key, compare}` shape the ordered dictionary consumes. -/
structure ChatOrdering where
  key : Chat → String
  compare : String → String → Int

/-- Modelled from the spec: the chat sort key string (§4.3) — an optional
pinned component (only in pin-aware mode; a high-rank prefix when pinned),
an archived component (`0` archived, `1` unarchived), and the activity
component (the fixed-width-padded conversation timestamp when present, else
an empty placeholder, followed by the chat id as tiebreaker). -/
def waChatKeyStr (pin : Bool) (c : Chat) : String :=
  (if pin then (if c.pinned.isSome then "1" else "0") else "") ++
  (if c.archived.getD false then "0" else "1") ++
  (match c.conversationTimestamp with
    | some t => padStart 10 '0' (toString t)
    | none => "") ++
  c.id

/-- Modelled from the spec: the reverse-lexicographic string comparison of
§4.3 — positive when the first key is smaller, negative when greater, zero
when equal, so higher keys sort earlier. -/
def waChatCompare (a b : String) : Int :=
  if a < b then 1 else if b < a then -1 else 0

/-- Modelled from the spec: `waChatKey(pin)` — the chat ordering with the
pin-aware or pin-blind key and the reverse-lexicographic comparison
(§4.3). -/
def waChatKey (pin : Bool) : ChatOrdering :=
  { key := waChatKeyStr pin, compare := waChatCompare }

/-- **C9** (Pin-blind chat-key noninterference).  Two chats equal in every
field except their pinned status produce the same pin-blind key string
(conjunct one); and in either mode the comparison is reverse lexicographic:
positive when the first string is smaller, negative when greater, zero when
equal (conjunct two). -/
theorem chat_key_pin_blind :
    (∀ c1 c2 : Chat, c1.id = c2.id → c1.unreadCount = c2.unreadCount →
      c1.conversationTimestamp = c2.conversationTimestamp →
      c1.archived = c2.archived → c1.name = c2.name →
      (waChatKey false).key c1 = (waChatKey false).key c2) ∧
    (∀ pin : Bool, ∀ a b : String,
      (a < b → 0 < (waChatKey pin).compare a b) ∧
      (b < a → (waChatKey pin).compare a b < 0) ∧
      (a = b → (waChatKey pin).compare a b = 0)) := by
  constructor
  · intro c1 c2 hid _ hts harch _
    simp [waChatKey, waChatKeyStr, hid, hts, harch]
  · intro pin a b
    refine ⟨?_, ?_, ?_⟩
    · intro hab
      simp [waChatKey, waChatCompare, hab]
    · intro hba
      have hnab : ¬ a < b := lt_asymm hba
      simp [waChatKey, waChatCompare, hnab, hba]
    · intro heq
      subst heq
      simp [waChatKey, waChatCompare, lt_irrefl]

/-- Witness for C9 at concrete inputs: pinned and unpinned variants of the
same chat share the pin-blind key, and the comparison orders concrete
strings reverse-lexicographically. -/
theorem chat_key_pin_blind_witness :
    (waChatKey false).key { id := "t", pinned := some 1, archived := some false } =
      (waChatKey false).key { id := "t", pinned := none, archived := some false } ∧
    0 < (waChatKey true).compare "a" "b" ∧
    (waChatKey true).compare "b" "a" < 0 ∧
    (waChatKey true).compare "a" "a" = 0 := by
  have h := chat_key_pin_blind
  refine ⟨?_, ?_, ?_, ?_⟩
  · exact h.1 { id := "t", pinned := some 1, archived := some false }
      { id := "t", pinned := none, archived := some false } rfl rfl rfl rfl rfl
  · exact (h.2 true "a" "b").1 (by rw [String.lt_iff_toList_lt]; decide)
  · exact (h.2 true "b" "a").2.1 (by rw [String.lt_iff_toList_lt]; decide)
  · exact (h.2 true "a" "a").2.2 rfl

/-! ## The key-value-backed authentication adapter

Embedded from `src/src/Store/make-cache-manager-store.ts`.  The payloads
round-tripped through `JSON.stringify`/`JSON.parse` with the upstream
`BufferJSON` replacer/reviver (an external collaborator of the repository,
described by §4.5) are modelled structurally: byte arrays are first-class
leaves of a JSON value type, and the codec maps them to and from the
`type: Buffer` object form; the raw-text rendering of the JS runtime is
elided. -/

/-- A structural JSON value with byte arrays as first-class leaves. -/
inductive JVal
  | null
  | bool (b : Bool)
  | num (n : Int)
  | str (s : String)
  | buf (bytes : List Nat)
  | arr (xs : List JVal)
  | obj (fields : List (String × JVal))
deriving Repr

/-- Read an integer leaf back as a byte, as the `BufferJSON` reviver does
for the array-of-integers form. -/
def jnumToNat : JVal → Nat
  | JVal.num n => n.toNat
  | _ => 0

mutual

/-- Models the `BufferJSON.replacer` (§4.5): a byte array is encoded as a
`type: Buffer` object, every other value encodes structurally. -/
def encodeBJ : JVal → JVal
  | JVal.buf bs =>
    JVal.obj [("type", JVal.str "Buffer"),
              ("data", JVal.arr (bs.map (fun b => JVal.num (Int.ofNat b))))]
  | JVal.arr xs => JVal.arr (encodeBJList xs)
  | JVal.obj fs => JVal.obj (encodeBJFields fs)
  | v => v

def encodeBJList : List JVal → List JVal
  | [] => []
  | x :: xs => encodeBJ x :: encodeBJList xs

def encodeBJFields : List (String × JVal) → List (String × JVal)
  | [] => []
  | (k, v) :: fs => (k, encodeBJ v) :: encodeBJFields fs

end

mutual

/-- Models the `BufferJSON.reviver` (§4.5): any `type: Buffer` object is
reconstructed as a byte array, other values decode structurally. -/
def decodeBJ : JVal → JVal
  | JVal.obj [("type", JVal.str "Buffer"), ("data", JVal.arr xs)] =>
    JVal.buf (xs.map jnumToNat)
  | JVal.obj fs => JVal.obj (decodeBJFields fs)
  | JVal.arr xs => JVal.arr (decodeBJList xs)
  | v => v

def decodeBJList : List JVal → List JVal
  | [] => []
  | x :: xs => decodeBJ x :: decodeBJList xs

def decodeBJFields : List (String × JVal) → List (String × JVal)
  | [] => []
  | (k, v) :: fs => (k, decodeBJ v) :: decodeBJFields fs

end

/-- An entry of the modelled key-value store: the physical key, the stored
serialized value, and the TTL passed when the entry was last written. -/
structure StoreEntry where
  key : String
  value : JVal
  ttl : Option Nat := none
deriving Repr

/-- The state of the modelled key-value store. -/
structure StoreState where
  entries : List StoreEntry := []
deriving Repr

/-- The failure behaviour of the underlying store: which of its operations
throw (per key for `get`/`set`/`delete`), modelling a `StorageAdapter`
whose promises may reject (§4.8, §7). -/
structure StoreFaults where
  getFails : String → Bool := fun _ => false
  setFails : String → Bool := fun _ => false
  delFails : String → Bool := fun _ => false
  clearFails : Bool := false

/-- The `get` operation of the `StorageAdapter` interface: the stored value
or absent, or a thrown error. -/
def kvGet (f : StoreFaults) (st : StoreState) (k : String) :
    Except String (Option JVal) :=
  if f.getFails k then Except.error "get failed"
  else Except.ok ((lookupBy StoreEntry.key st.entries k).map StoreEntry.value)

/-- The `set` operation: upsert the entry recording the passed TTL, or a
thrown error. -/
def kvSet (f : StoreFaults) (st : StoreState) (k : String) (v : JVal)
    (ttl : Option Nat) : Except String StoreState :=
  if f.setFails k then Except.error "set failed"
  else Except.ok
    { entries := upsertBy StoreEntry.key { key := k, value := v, ttl := ttl } st.entries }

/-- The `delete` operation: remove the key, reporting whether it existed,
or a thrown error. -/
def kvDel (f : StoreFaults) (st : StoreState) (k : String) :
    Except String (StoreState × Bool) :=
  if f.delFails k then Except.error "delete failed"
  else Except.ok
    ({ entries := st.entries.filter (fun e => !(e.key == k)) },
      (lookupBy StoreEntry.key st.entries k).isSome)

/-- The `clear` operation: empty the whole store, or a thrown error. -/
def kvClear (f : StoreFaults) (_st : StoreState) : Except String StoreState :=
  if f.clearFails then Except.error "clear failed" else Except.ok { entries := [] }

/-- `defaultKey` of the source: the session-prefixed physical key. -/
def defaultKey (sessionKey file : String) : String := sessionKey ++ ":" ++ file

/-- `writeData` of the source: serialize with the buffer-preserving
replacer and `set` under the physical key, passing the two-year millisecond
TTL exactly for the `creds` file.  There is no catch here: a `set` failure
propagates to the caller. -/
def writeData (f : StoreFaults) (sk : String) (st : StoreState) (file : String)
    (data : JVal) : Except String StoreState :=
  let ttl : Option Nat := if file == "creds" then some 63115200000 else none
  kvSet f st (defaultKey sk file) (encodeBJ data) ttl

/-- `readData` of the source: `get` the physical key and parse with the
reviver; any error is caught and logged and the result is `null`. -/
def readData (f : StoreFaults) (st : StoreState) (sk : String) (file : String) :
    Option JVal :=
  match kvGet f st (defaultKey sk file) with
  | Except.ok (some v) => some (decodeBJ v)
  | Except.ok none => none
  | Except.error _ => none

/-- `removeData` of the source: `delete` the physical key; an error is
caught and logged, leaving the store unchanged. -/
def removeData (f : StoreFaults) (sk : String) (st : StoreState) (file : String) :
    StoreState :=
  match kvDel f st (defaultKey sk file) with
  | Except.ok (st2, _) => st2
  | Except.error _ => st

/-- `clearState` of the source: `clear` the whole store; an error is caught
and logged, leaving the store unchanged. -/
def clearStateOp (f : StoreFaults) (st : StoreState) : StoreState :=
  match kvClear f st with
  | Except.ok st2 => st2
  | Except.error _ => st

/-- `initAuthCreds` of the upstream library (external collaborator): a
fixed fresh credential record. -/
def initAuthCreds : JVal :=
  JVal.obj [("registrationId", JVal.num 0), ("advSecretKey", JVal.str "")]

/-- The `app-state-sync-key` payload reconstruction
(`proto.Message.AppStateSyncKeyData.create`, external collaborator):
structurally the payload passes through. -/
def appStateSyncKeyCreate (v : JVal) : JVal := v

/-- `state.keys.get` of the source: read each `type-id` physical key,
reconstructing `app-state-sync-key` payloads, associating `null` to every
id whose read failed or was absent. -/
def keysGetOp (f : StoreFaults) (sk : String) (ty : String) (ids : List String)
    (st : StoreState) : List (String × Option JVal) :=
  ids.map (fun i =>
    (i, (readData f st sk (ty ++ "-" ++ i)).map
      (fun v => if ty == "app-state-sync-key" then appStateSyncKeyCreate v else v)))

/-- `state.keys.set` of the source: for each `(category, id, value)` triple
write `category + "-" + id` when the value is present and delete it when it
is absent.  The source issues the writes concurrently via `Promise.all`;
the model linearizes them left to right, which is observation-equivalent
for the per-key facts proved here.  A `set` failure propagates (no catch in
`writeData`); deletes are caught inside `removeData`. -/
def keysSetOp (f : StoreFaults) (sk : String) :
    List (String × String × Option JVal) → StoreState → Except String StoreState
  | [], st => Except.ok st
  | x :: rest, st =>
    match x.2.2 with
    | some v =>
      match writeData f sk st (x.1 ++ "-" ++ x.2.1) v with
      | Except.ok st2 => keysSetOp f sk rest st2
      | Except.error e => Except.error e
    | none => keysSetOp f sk rest (removeData f sk st (x.1 ++ "-" ++ x.2.1))

/-- The object returned by `makeCacheManagerAuthState`: the credential
record loaded at construction, and the adapter methods, each parameterized
by the store state it runs against. -/
structure AuthStateAPI where
  creds : JVal
  saveCreds : StoreState → Except String StoreState
  clearState : StoreState → StoreState
  keysGet : String → List String → StoreState → List (String × Option JVal)
  keysSet : List (String × String × Option JVal) → StoreState → Except String StoreState

/-- `makeCacheManagerAuthState(store, sessionKey)` of the source: load
`creds` from the store's construction-time state (falling back to fresh
credentials when the read failed or was absent) and expose `saveCreds`,
`clearState` and the `state.keys` accessors. -/
def makeCacheManagerAuthState (f : StoreFaults) (st0 : StoreState) (sk : String) :
    AuthStateAPI :=
  let creds := (readData f st0 sk "creds").getD initAuthCreds
  { creds := creds
    saveCreds := fun st => writeData f sk st "creds" creds
    clearState := fun st => clearStateOp f st
    keysGet := fun ty ids st => keysGetOp f sk ty ids st
    keysSet := fun data st => keysSetOp f sk data st }

/-- `const makeKeyvAuthState = makeCacheManagerAuthState` of the source:
the recommended entry point is bound to the very same function value. -/
def makeKeyvAuthState : StoreFaults → StoreState → String → AuthStateAPI :=
  makeCacheManagerAuthState

/-- **C10** (alias equivalence).  `makeKeyvAuthState` is bound to the very
same function value as `makeCacheManagerAuthState`, so for every store
behaviour, initial state and session key the two entry points produce
identical auth-state objects. -/
theorem keyv_alias_equivalence :
    makeKeyvAuthState = makeCacheManagerAuthState ∧
    ∀ (f : StoreFaults) (st0 : StoreState) (sk : String),
      makeKeyvAuthState f st0 sk = makeCacheManagerAuthState f st0 sk :=
  ⟨rfl, fun _ _ _ => rfl⟩

/-- A store whose `set` operation always throws. -/
def allSetFail : StoreFaults := { setFails := fun _ => true }

/-- A store all of whose operations always throw. -/
def allFail : StoreFaults :=
  { getFails := fun _ => true, setFails := fun _ => true,
    delFails := fun _ => true, clearFails := true }

/-- **C7 counterexample**: against a store whose `set` throws, `saveCreds`
and a value-carrying `state.keys.set` both propagate the error — refuting
the claim that no store error escapes any adapter method. -/
theorem auth_error_containment_cex :
    ((makeCacheManagerAuthState allSetFail {} "s").saveCreds {}).isOk = false ∧
    ((makeCacheManagerAuthState allSetFail {} "s").keysSet
        [("pre-key", "1", some (JVal.str "v"))] {}).isOk = false := by
  exact ⟨rfl, rfl⟩

theorem keysSetOp_deletes_ok (f : StoreFaults) (sk : String) :
    ∀ (data : List (String × String × Option JVal)) (st : StoreState),
      (∀ x ∈ data, x.2.2 = none) → (keysSetOp f sk data st).isOk = true := by
  intro data
  induction data with
  | nil => intro st _; rfl
  | cons x rest ih =>
    intro st hdel
    have hx : x.2.2 = none := hdel x (List.mem_cons_self x rest)
    simp only [keysSetOp, hx]
    exact ih (removeData f sk st (x.1 ++ "-" ++ x.2.1))
      (fun y hy => hdel y (List.mem_cons_of_mem x hy))

/-- **C7** (amended).  Errors from the underlying store's `get`, `delete`
and `clear` operations are contained: a failing `get` makes `readData`
yield `null` (conjunct one) so creds initialization falls back to fresh
credentials (conjunct two) and `state.keys.get` yields `null` per id
(conjunct three); a failing `delete` leaves the store unchanged (conjunct
four) so a deletes-only `state.keys.set` still succeeds (conjunct five);
a failing `clear` makes `clearState` a no-op (conjunct six).  Errors from
`set`, however, propagate out of `saveCreds` (conjunct seven) — the code
has no catch in `writeData`. -/
theorem auth_error_containment (f : StoreFaults) (st0 st : StoreState) (sk : String) :
    (∀ file : String, f.getFails (defaultKey sk file) = true →
      readData f st sk file = none) ∧
    (f.getFails (defaultKey sk "creds") = true →
      (makeCacheManagerAuthState f st sk).creds = initAuthCreds) ∧
    (∀ ty : String, ∀ ids : List String, (∀ k, f.getFails k = true) →
      (makeCacheManagerAuthState f st0 sk).keysGet ty ids st =
        ids.map (fun i => (i, none))) ∧
    (∀ file : String, f.delFails (defaultKey sk file) = true →
      removeData f sk st file = st) ∧
    (∀ data : List (String × String × Option JVal), (∀ x ∈ data, x.2.2 = none) →
      ((makeCacheManagerAuthState f st0 sk).keysSet data st).isOk = true) ∧
    (f.clearFails = true → (makeCacheManagerAuthState f st0 sk).clearState st = st) ∧
    (f.setFails (defaultKey sk "creds") = true →
      ((makeCacheManagerAuthState f st0 sk).saveCreds st).isOk = false) := by
  refine ⟨?_, ?_, ?_, ?_, ?_, ?_, ?_⟩
  · intro file h
    simp [readData, kvGet, h]
  · intro h
    simp [makeCacheManagerAuthState, readData, kvGet, h]
  · intro ty ids hall
    simp [makeCacheManagerAuthState, keysGetOp, readData, kvGet, hall]
  · intro file h
    simp [removeData, kvDel, h]
  · intro data hdel
    exact keysSetOp_deletes_ok f sk data st hdel
  · intro h
    simp [makeCacheManagerAuthState, clearStateOp, kvClear, h]
  · intro h
    have herr : (makeCacheManagerAuthState f st0 sk).saveCreds st =
        Except.error "set failed" := by
      simp [makeCacheManagerAuthState, writeData, kvSet, h]
    rw [herr]
    rfl

/-- Witness for the amended C7 at concrete inputs: against the all-failing
store, every contained path behaves benignly and `saveCreds` errors. -/
theorem auth_error_containment_witness :
    readData allFail {} "s" "creds" = none ∧
    (makeCacheManagerAuthState allFail {} "s").creds = initAuthCreds ∧
    (makeCacheManagerAuthState allFail {} "s").keysGet "pre-key" ["1"] {} =
      [("1", none)] ∧
    removeData allFail "s" {} "pre-key-1" = {} ∧
    ((makeCacheManagerAuthState allFail {} "s").keysSet
        [("pre-key", "1", none)] {}).isOk = true ∧
    (makeCacheManagerAuthState allFail {} "s").clearState {} = {} ∧
    ((makeCacheManagerAuthState allFail {} "s").saveCreds {}).isOk = false := by
  have h := auth_error_containment allFail {} {} "s"
  exact ⟨h.1 "creds" rfl, h.2.1 rfl, h.2.2.1 "pre-key" ["1"] (fun _ => rfl),
    h.2.2.2.1 "pre-key-1" rfl, h.2.2.2.2.1 [("pre-key", "1", none)] (by simp),
    h.2.2.2.2.2.1 rfl, h.2.2.2.2.2.2 rfl⟩

/-- **C8** (saveCreds persistence).  `saveCreds` serializes the adapter's
credential record with the buffer-preserving replacer and performs exactly
one store write, under the physical key `sessionKey ++ ":creds"`, passing
the TTL `63115200000` (two years in milliseconds); a `state.keys.set` write
of any other logical key passes no TTL. -/
theorem savecreds_persistence (f : StoreFaults) (st0 st : StoreState) (sk : String)
    (hset : f.setFails (sk ++ ":creds") = false) :
    (makeCacheManagerAuthState f st0 sk).saveCreds st =
      Except.ok { entries := (upsertBy StoreEntry.key
        (StoreEntry.mk (sk ++ ":creds")
          (encodeBJ (makeCacheManagerAuthState f st0 sk).creds)
          (some 63115200000)) st.entries) } ∧
    (∀ cat id : String, ∀ v : JVal, ∀ st2 : StoreState,
      ¬ cat ++ "-" ++ id = "creds" →
      f.setFails (sk ++ ":" ++ (cat ++ "-" ++ id)) = false →
      (makeCacheManagerAuthState f st0 sk).keysSet [(cat, id, some v)] st2 =
        Except.ok { entries := (upsertBy StoreEntry.key
          (StoreEntry.mk (sk ++ ":" ++ (cat ++ "-" ++ id)) (encodeBJ v) none)
          st2.entries) }) := by
  have hkey : defaultKey sk "creds" = sk ++ ":creds" := by
    rw [defaultKey, String.append_assoc]
    rfl
  constructor
  · simp only [makeCacheManagerAuthState, writeData, kvSet, hkey, hset,
      Bool.false_eq_true, if_false]
    rfl
  · intro cat id v st2 hne hset2
    have hfile : ((cat ++ "-" ++ id) == "creds") = false := by
      simpa using hne
    simp only [makeCacheManagerAuthState, keysSetOp, writeData, kvSet, defaultKey,
      hfile, hset2, Bool.false_eq_true, if_false]

/-- Witness for C8 at concrete inputs: against a fault-free store,
`saveCreds` writes exactly the `s:creds` entry with the two-year
millisecond TTL, and a `state.keys.set` write of `pre-key-1` records no
TTL. -/
theorem savecreds_persistence_witness :
    (makeCacheManagerAuthState {} {} "s").saveCreds {} =
      Except.ok { entries := [StoreEntry.mk "s:creds" (encodeBJ initAuthCreds)
        (some 63115200000)] } ∧
    (makeCacheManagerAuthState {} {} "s").keysSet
        [("pre-key", "1", some (JVal.str "v"))] {} =
      Except.ok { entries := [StoreEntry.mk "s:pre-key-1" (JVal.str "v") none] } := by
  have h := savecreds_persistence {} {} {} "s" rfl
  constructor
  · rw [h.1]
    rfl
  · rw [h.2 "pre-key" "1" (JVal.str "v") {} (by decide) rfl]
    rfl

end BaileysStore
